import Mathlib

/-!
# Verification of the AD-transcript preparation and evaluation pipeline

Shallow embedding of the core of the `VLM-evaluate-AD` repository:

* the Interval Merge Engine (`prepare_dialogue` in `prepare_human_ad.py`),
* the Clip Set Assembler (the row loop of `generate_final_output` in
  `prepare_human_ad.py`, and `extract_audio_clips` in
  `extract_human_transcript.py`),
* the Response Normalizer (`clean_and_parse_json` in `qwen_evaluate.py` /
  `gemini_evaluate.py`),
* the Evaluation Chunker (`evaluate_video_with_qwen`,
  `combine_chunk_responses`, `get_video_duration` in `qwen_evaluate.py`).

Python floats are modelled as rationals (`ℚ`); Python's two-argument
`round(x, 2)` is modelled exactly, including its round-half-to-even tie
rule.  Python's stdlib parsers (`json.loads`, `ast.literal_eval`,
`float(...)`) and the external media tools (ffmpeg/ffprobe, the model
backend) are external collaborators and enter the embedding as explicit
functional parameters.
-/

/-! ## Python `round` on rationals -/

/-- Round a rational to the nearest integer, ties to even
(the rounding rule of Python's builtin `round`). -/
def rndHalfEven (q : ℚ) : ℤ :=
  let f : ℤ := ⌊q⌋
  let frac : ℚ := q - f
  if frac < 1/2 then f
  else if 1/2 < frac then f + 1
  else if f % 2 = 0 then f else f + 1

/-- Python's `round(x, 2)`: round to two decimal places, ties to even. -/
def pyround2 (q : ℚ) : ℚ := (rndHalfEven (q * 100) : ℚ) / 100

/-! ## Interval Merge Engine (`prepare_dialogue`, `prepare_human_ad.py`)

A transcript line carries times relative to its scene's start
(`line.get("start", 0)` / `line.get("end", 0)`); `end` is a Lean keyword,
so the field is called `end'`. -/

structure TranscriptLine where
  start : ℚ
  end' : ℚ
deriving Repr, DecidableEq

structure Scene where
  start_time : ℚ
  end_time : ℚ
  transcript : List TranscriptLine
deriving Repr, DecidableEq

structure DialogueInterval where
  start_time : ℚ
  end_time : ℚ
  duration : ℚ
  sequence_num : ℕ
deriving Repr, DecidableEq

/-- Loop state of `prepare_dialogue`.  The Python code appends to the end
of `dialogue` and mutates `dialogue[-1]`; we keep the list reversed
(most recently emitted interval first) and reverse once at the end. -/
structure MergeState where
  revDialogue : List DialogueInterval
  sequence_counter : ℕ
  last_dialogue_end : Option ℚ
  continuing_dialogue : Bool
deriving Repr, DecidableEq

def initMergeState : MergeState :=
  { revDialogue := [], sequence_counter := 1,
    last_dialogue_end := none, continuing_dialogue := false }

/-- The condition under which `prepare_dialogue` extends the last emitted
interval instead of emitting a new one (lines 24–25 of
`prepare_human_ad.py`): `last_dialogue_end` is set, the new absolute start
is within the 0.1 gap threshold of it, the dialogue list is non-empty and
the `continuing_dialogue` flag is set. -/
def mergeCond (st : MergeState) (start : ℚ) : Bool :=
  (match st.last_dialogue_end with
   | some le => decide (|start - le| < 1/10)
   | none => false)
  && !st.revDialogue.isEmpty && st.continuing_dialogue

/-- One iteration of the inner loop of `prepare_dialogue` (lines 18–46 of
`prepare_human_ad.py`) for a single transcript line of a scene with
absolute bounds `sceneStart`/`sceneEnd`. -/
def processLine (sceneStart sceneEnd : ℚ) (st : MergeState)
    (line : TranscriptLine) : MergeState :=
  let start := sceneStart + line.start
  let end' := sceneStart + line.end'
  if mergeCond st start then
    match st.revDialogue with
    | d :: rest =>
        { st with
          revDialogue :=
            { d with end_time := end' - 1/10,
                     duration := pyround2 ((end' - 1/10) - d.start_time) } :: rest,
          continuing_dialogue := false,
          last_dialogue_end := some end' }
    | [] => st    -- unreachable: `mergeCond` requires a non-empty list
  else
    { revDialogue :=
        { start_time := start, end_time := end' - 1/10,
          duration := pyround2 (end' - start),
          sequence_num := st.sequence_counter } :: st.revDialogue,
      sequence_counter := st.sequence_counter + 1,
      continuing_dialogue := decide (end' ≥ sceneEnd - 1/10),
      last_dialogue_end := some end' }

/-- The scene loop of `prepare_dialogue`: fold `processLine` over the
scene's transcript, using `scene.start_time` and `scene.end_time`. -/
def processScene (st : MergeState) (scene : Scene) : MergeState :=
  scene.transcript.foldl (processLine scene.start_time scene.end_time) st

/-- `prepare_dialogue` (`prepare_human_ad.py`, lines 8–48): fold over the
scenes, then return the accumulated dialogue list in emission order. -/
def prepare_dialogue (scenes : List Scene) : List DialogueInterval :=
  ((scenes.foldl processScene initMergeState).revDialogue).reverse

/-! ## Clip Set Assembler

`generate_final_output` (`prepare_human_ad.py`, lines 138–158) reads CSV
rows (lists of string fields), skips empty rows, skips rows with fewer
than 19 columns, coerces columns 15 and 16 with Python's `float(...)`
(a `ValueError` is caught and the row skipped), and finally sorts by
`start_time`.  `float` is stdlib; it enters as a parameter
`fp : String → Option ℚ` (`none` models a raised `ValueError`). -/

structure AudioClip where
  start_time : ℚ
  end_time : ℚ
  type : String
  description_style : String
  text : String
deriving Repr, DecidableEq

/-- The row loop of `generate_final_output` (lines 138–155): row order is
preserved; malformed rows contribute nothing. -/
def parseAudioRows (fp : String → Option ℚ) : List (List String) → List AudioClip
  | [] => []
  | row :: rows =>
    if row.isEmpty then parseAudioRows fp rows
    else if row.length < 19 then parseAudioRows fp rows
    else
      match fp (row.getD 15 "") with
      | none => parseAudioRows fp rows
      | some s =>
        match fp (row.getD 16 "") with
        | none => parseAudioRows fp rows
        | some e =>
          { start_time := s, end_time := e, type := "Visual",
            description_style := row.getD 14 "",
            text := row.getD 18 "" } :: parseAudioRows fp rows

/-- `audio_clips.sort(key=lambda clip: clip['start_time'])` (line 157).
Python's list sort is a stable sort by the key; a stable sort by a total
preorder is extensionally unique, so `List.mergeSort` computes it. -/
def sortClips (l : List AudioClip) : List AudioClip :=
  l.mergeSort (fun a b => a.start_time ≤ b.start_time)

/-- The audio-clip stage of `generate_final_output`: parse the rows, then
sort the clips by start time. -/
def generate_audio_clips (fp : String → Option ℚ) (rows : List (List String)) :
    List AudioClip :=
  sortClips (parseAudioRows fp rows)

/-- A row as seen by `csv.DictReader` in `extract_human_transcript.py`:
`row.get(k)` yields `None` for a missing column, modelled by `Option`. -/
structure CsvRow where
  youtube_id : Option String
  audio_description_id : Option String
  audio_clip_start_time : Option String
  audio_clip_end_time : Option String
  audio_clip_playback_type : Option String
  audio_clip_transcript : Option String
deriving Repr, DecidableEq

/-- `float(row.get(k))`: `float(None)` raises `TypeError` and
`float(<non-numeric>)` raises `ValueError`; neither is caught in
`extract_audio_clips`, so failure aborts the whole call (`Except.error`). -/
def pyFloatOfField (fp : String → Option ℚ) : Option String → Except Unit ℚ
  | none => .error ()
  | some s => match fp s with
    | none => .error ()
    | some q => .ok q

/-- The row loop of `extract_audio_clips` (`extract_human_transcript.py`,
lines 24–31): rows matching both identifiers are coerced; a coercion
failure propagates (the Python loop has no `try`). -/
def extractClipRows (fp : String → Option ℚ) (video_id adid : String) :
    List CsvRow → Except Unit (List AudioClip)
  | [] => .ok []
  | r :: rs =>
    if r.youtube_id = some video_id ∧ r.audio_description_id = some adid then
      match pyFloatOfField fp r.audio_clip_start_time with
      | .error _ => .error ()
      | .ok s =>
        match pyFloatOfField fp r.audio_clip_end_time with
        | .error _ => .error ()
        | .ok e =>
          (extractClipRows fp video_id adid rs).map
            (fun clips =>
              { start_time := s, end_time := e, type := "Visual",
                description_style := (r.audio_clip_playback_type).getD "",
                text := (r.audio_clip_transcript).getD "" } :: clips)
    else extractClipRows fp video_id adid rs

/-- `extract_audio_clips` (lines 7–35): collect the matching rows, then
sort by `start_time`. -/
def extract_audio_clips (fp : String → Option ℚ) (video_id adid : String)
    (rows : List CsvRow) : Except Unit (List AudioClip) :=
  (extractClipRows fp video_id adid rows).map sortClips

/-! ## Response Normalizer (`clean_and_parse_json`, `qwen_evaluate.py`)

Python values reaching this code are modelled by `PyVal`; `json.loads`
and `ast.literal_eval` are stdlib collaborators and enter as parameters
`jl le : String → Option PyVal` (`none` models the raised
`JSONDecodeError` / `SyntaxError` / `ValueError`). -/

inductive PyVal where
  | vnone
  | vbool (b : Bool)
  | vnum (q : ℚ)
  | vstr (s : String)
  | vlist (xs : List PyVal)
  | vdict (entries : List (String × PyVal))
deriving Repr

/-- Python truthiness of a value. -/
def pyTruthy : PyVal → Bool
  | .vnone => false
  | .vbool b => b
  | .vnum q => decide (q ≠ 0)
  | .vstr s => !s.isEmpty
  | .vlist xs => !xs.isEmpty
  | .vdict es => !es.isEmpty

/-- Does `hay` start with `pat`? -/
def leadsWith : List Char → List Char → Bool
  | [], _ => true
  | _ :: _, [] => false
  | p :: ps, c :: cs => p == c && leadsWith ps cs

/-- Does `hay` contain `pat` as a contiguous run? -/
def hasSubList (hay pat : List Char) : Bool :=
  match hay with
  | [] => pat.isEmpty
  | _ :: rest => leadsWith pat hay || hasSubList rest pat

/-- Python's `k in v`: key test on dicts, membership on lists, substring
test on strings; `some b` is the boolean outcome, `none` models the
`TypeError` raised on non-container values (numbers, booleans, `None`). -/
def pyContains (v : PyVal) (k : String) : Option Bool :=
  match v with
  | .vdict es => some (es.any (fun e => e.1 == k))
  | .vlist xs =>
      some (xs.any (fun x => match x with | .vstr s => s == k | _ => false))
  | .vstr s => some (hasSubList s.toList k.toList)
  | _ => none

/-- Structural worker for `stripFences`: the fuel only forces structural
recursion and never runs out when initialized with the list length
(`stripFencesFuel_congr` / `stripFences_cons` below certify this). -/
def stripFencesFuel : ℕ → List Char → List Char
  | _, [] => []
  | 0, _ :: _ => []
  | n + 1, c :: rest =>
    if leadsWith ("```json".toList) (c :: rest) then
      stripFencesFuel n (rest.drop 6)
    else if leadsWith ("```".toList) (c :: rest) then
      stripFencesFuel n (rest.drop 2)
    else c :: stripFencesFuel n rest

/-- `re.sub(r'```json|```', '', text)`: scan left to right, removing
`"```json"` in preference to `"```"` at each position (the regex engine
tries alternatives left-to-right). -/
def stripFences (cs : List Char) : List Char :=
  stripFencesFuel cs.length cs

theorem stripFencesFuel_congr :
    ∀ (m n : ℕ) (cs : List Char), cs.length ≤ m → cs.length ≤ n →
      stripFencesFuel m cs = stripFencesFuel n cs
  | m, n, [], _, _ => by cases m <;> cases n <;> rfl
  | 0, _, _ :: _, hm, _ => by simp at hm
  | _ + 1, 0, _ :: _, _, hn => by simp at hn
  | m + 1, n + 1, c :: rest, hm, hn => by
    simp only [List.length_cons, Nat.add_le_add_iff_right] at hm hn
    simp only [stripFencesFuel]
    have h6 : (rest.drop 6).length ≤ m ∧ (rest.drop 6).length ≤ n := by
      constructor <;> (simp only [List.length_drop]; omega)
    have h2 : (rest.drop 2).length ≤ m ∧ (rest.drop 2).length ≤ n := by
      constructor <;> (simp only [List.length_drop]; omega)
    rcases Decidable.em (leadsWith ("```json".toList) (c :: rest) = true)
      with hj | hj
    · rw [if_pos hj, if_pos hj, stripFencesFuel_congr m n _ h6.1 h6.2]
    · rw [if_neg hj, if_neg hj]
      rcases Decidable.em (leadsWith ("```".toList) (c :: rest) = true)
        with hf | hf
      · rw [if_pos hf, if_pos hf, stripFencesFuel_congr m n _ h2.1 h2.2]
      · rw [if_neg hf, if_neg hf, stripFencesFuel_congr m n rest hm hn]

/-- `stripFences` satisfies the intended left-to-right removal recursion
(the fuel in `stripFencesFuel` is an implementation detail). -/
theorem stripFences_cons (c : Char) (rest : List Char) :
    stripFences (c :: rest) =
      if leadsWith ("```json".toList) (c :: rest) then
        stripFences (rest.drop 6)
      else if leadsWith ("```".toList) (c :: rest) then
        stripFences (rest.drop 2)
      else c :: stripFences rest := by
  simp only [stripFences, List.length_cons, stripFencesFuel]
  rcases Decidable.em (leadsWith ("```json".toList) (c :: rest) = true)
    with hj | hj
  · rw [if_pos hj, if_pos hj]
    exact stripFencesFuel_congr _ _ _ (by simp only [List.length_drop]; omega)
      le_rfl
  · rw [if_neg hj, if_neg hj]
    rcases Decidable.em (leadsWith ("```".toList) (c :: rest) = true)
      with hf | hf
    · rw [if_pos hf, if_pos hf]
      exact stripFencesFuel_congr _ _ _ (by simp only [List.length_drop]; omega)
        le_rfl
    · rw [if_neg hf, if_neg hf]

/-- Python `str.strip()`: ASCII whitespace characters. -/
def pyWhitespace (c : Char) : Bool :=
  c == ' ' || c == '\t' || c == '\n' || c == '\r' || c == '\x0b' || c == '\x0c'

/-- Python `str.strip()`: drop whitespace from both ends. -/
def pyStrip (cs : List Char) : List Char :=
  ((cs.dropWhile pyWhitespace).reverse.dropWhile pyWhitespace).reverse

/-- `text.find('{')`: index of the first opening brace (`none` for -1). -/
def firstBraceIdx (cs : List Char) : Option ℕ :=
  cs.findIdx? (fun c => c == '\x7b')

/-- `text.rfind('}')`: index of the last closing brace (`none` for -1). -/
def lastBraceIdx (cs : List Char) : Option ℕ :=
  match cs.reverse.findIdx? (fun c => c == '\x7d') with
  | some i => some (cs.length - 1 - i)
  | none => none

/-- The error object built in the `except` branch of
`clean_and_parse_json`; `raw` is the value of the local `text`
variable at that point. -/
def parseFailDict (raw : String) : PyVal :=
  .vdict [("error", .vstr "Failed to parse model output as JSON"),
          ("raw_response", .vstr raw)]

/-- `clean_and_parse_json` (`qwen_evaluate.py` lines 103–119,
`gemini_evaluate.py` lines 91–107).  Note that the local `text` is
reassigned to the fence-stripped, stripped text before the brace search,
so both the `ast.literal_eval` fallback and the error object's
`raw_response` see the *stripped* text, and the fallback runs only when
no `{`...`}` pair is found — not when `json.loads` fails. -/
def clean_and_parse_json (jl le : String → Option PyVal) (text : String) : PyVal :=
  if text.isEmpty then
    .vdict [("error", .vstr "Received empty response from model.")]
  else
    let cs := pyStrip (stripFences text.toList)
    let t := String.mk cs
    match firstBraceIdx cs, lastBraceIdx cs with
    | some i, some j =>
      if i < j then
        match jl (String.mk ((cs.drop i).take (j + 1 - i))) with
        | some v => v
        | none => parseFailDict t
      else
        match le t with
        | some v => v
        | none => parseFailDict t
    | _, _ =>
      match le t with
      | some v => v
      | none => parseFailDict t

/-! ## Evaluation Chunker (`qwen_evaluate.py`) -/

/-- The inner loop of `combine_chunk_responses` (lines 183–186):
`some none` means the loop fell through, `some (some v)` means an early
return, `none` models the uncaught `TypeError` raised by
`"evaluation_summary" in parsed` on a truthy non-container parse. -/
def combineLoop (jl le : String → Option PyVal) :
    List String → Option (Option PyVal)
  | [] => some none
  | r :: rs =>
    let parsed := clean_and_parse_json jl le r
    if pyTruthy parsed then
      match pyContains parsed "evaluation_summary" with
      | none => none
      | some true => some (some parsed)
      | some false => combineLoop jl le rs
    else combineLoop jl le rs

/-- `combine_chunk_responses` (lines 177–189); result `none` models an
uncaught exception escaping to the caller. -/
def combine_chunk_responses (jl le : String → Option PyVal)
    (responses : List String) : Option PyVal :=
  if responses.isEmpty then
    some (.vdict [("error", .vstr "No valid responses from chunks")])
  else
    match combineLoop jl le responses with
    | none => none
    | some (some v) => some v
    | some none =>
      some (.vdict [("error", .vstr "Could not parse any chunk responses"),
                    ("raw_responses", .vlist (responses.map .vstr))])

/-- `get_video_duration` (lines 90–101): the ffprobe call is the external
probe; on `CalledProcessError`/`ValueError` the function returns `0.0`. -/
def get_video_duration (probe : Option ℚ) : ℚ :=
  match probe with
  | some d => d
  | none => 0

/-- The chunking loop of `evaluate_video_with_qwen` (lines 203–231):
starting from `chunk_start`, emit `[chunk_start, min (chunk_start + 30) D)`
windows while `chunk_start < D`. -/
def chunkGo (D : ℚ) (start : ℚ) : List (ℚ × ℚ) :=
  if h : start < D then
    (start, min (start + 30) D) :: chunkGo D (min (start + 30) D)
  else []
termination_by (⌈(D - start) / 30⌉).toNat
decreasing_by
  rcases le_or_lt D (start + 30) with hc | hc
  · have h1 : min (start + 30) D = D := min_eq_right hc
    have h2 : (0:ℚ) < (D - start) / 30 := by
      apply div_pos (by linarith) (by norm_num)
    have h3 : (1:ℤ) ≤ ⌈(D - start) / 30⌉ := by
      exact_mod_cast Int.one_le_ceil_iff.mpr h2
    simp only [h1, sub_self, zero_div, Int.ceil_zero, Int.toNat_zero]
    omega
  · have h1 : min (start + 30) D = start + 30 := min_eq_left hc.le
    have h2 : (D - (start + 30)) / 30 = (D - start) / 30 - 1 := by ring
    have h3 : ⌈(D - (start + 30)) / 30⌉ = ⌈(D - start) / 30⌉ - 1 := by
      rw [h2, Int.ceil_sub_one]
    have h4 : (1:ℤ) ≤ ⌈(D - start) / 30⌉ := by
      have : (0:ℚ) < (D - start) / 30 := by
        have : (0:ℚ) < D - start := by linarith
        positivity
      exact_mod_cast Int.one_le_ceil_iff.mpr this
    rw [h1, h3]
    omega

/-- The window list computed by `evaluate_video_with_qwen` for duration
`D` (`chunk_start` starts at `0.0`). -/
def chunkWindows (D : ℚ) : List (ℚ × ℚ) := chunkGo D 0

/-- `evaluate_video_with_qwen` (lines 191–243).  External effects enter as
parameters: `probe` is the ffprobe duration result, `chunkOk i` is whether
`create_video_chunk` succeeds for chunk index `i`, `resp i` the raw text
`process_single_chunk` returns for chunk `i` (`none` when all retries were
exhausted).  Result `none` models an uncaught exception. -/
def evaluate_video_with_qwen (probe : Option ℚ) (chunkOk : ℕ → Bool)
    (resp : ℕ → Option String) (jl le : String → Option PyVal) : Option PyVal :=
  let video_duration := get_video_duration probe
  let ws := chunkWindows video_duration
  let all_responses :=
    ws.enum.filterMap (fun p => if chunkOk p.1 then resp p.1 else none)
  combine_chunk_responses jl le all_responses

/-! ## Invariant machinery for the merge engine -/

/-- A state invariant preserved by every `processLine` step survives a
whole transcript fold. -/
theorem foldl_processLine_inv (Inv : MergeState → Prop)
    (hstep : ∀ a b st l, Inv st → Inv (processLine a b st l)) :
    ∀ (lines : List TranscriptLine) (a b : ℚ) (st : MergeState), Inv st →
      Inv (lines.foldl (processLine a b) st)
  | [], _, _, _, h => h
  | l :: ls, a, b, st, h =>
      foldl_processLine_inv Inv hstep ls a b _ (hstep a b st l h)

/-- A state invariant preserved by every `processLine` step survives the
whole scene fold of `prepare_dialogue`. -/
theorem foldl_processScene_inv (Inv : MergeState → Prop)
    (hstep : ∀ a b st l, Inv st → Inv (processLine a b st l)) :
    ∀ (scenes : List Scene) (st : MergeState), Inv st →
      Inv (scenes.foldl processScene st)
  | [], _, h => h
  | _ :: scs, _, h =>
      foldl_processScene_inv Inv hstep scs _
        (foldl_processLine_inv Inv hstep _ _ _ _ h)

/-- The sequence-number invariant: the reversed dialogue list carries
`counter-1, …, 2, 1` and the counter is one past the list length. -/
def SeqInv (st : MergeState) : Prop :=
  st.revDialogue.map (fun d => d.sequence_num)
      = (List.range' 1 st.revDialogue.length).reverse
    ∧ st.sequence_counter = st.revDialogue.length + 1

theorem seqInv_step (a b : ℚ) (st : MergeState) (l : TranscriptLine)
    (h : SeqInv st) : SeqInv (processLine a b st l) := by
  obtain ⟨hmap, hctr⟩ := h
  simp only [processLine]
  by_cases hm : mergeCond st (a + l.start) = true
  · rw [if_pos hm]
    obtain ⟨d, rest, hrev⟩ := List.exists_cons_of_ne_nil
      (show st.revDialogue ≠ [] from
        fun h0 => by rw [mergeCond, h0] at hm; simp at hm)
    rw [hrev] at hmap hctr ⊢
    exact ⟨by simpa using hmap, by simpa using hctr⟩
  · rw [if_neg hm]
    refine ⟨?_, by simp [hctr]⟩
    simp only [List.map_cons, List.length_cons, hmap, hctr]
    rw [List.range'_concat]
    simp [Nat.add_comm]

/-- C4: the `sequence_num` fields of `prepare_dialogue`'s output, in output
order, are exactly `1, 2, …, N` where `N` is the number of returned
intervals: a 1-based gapless counter with no repeats. -/
theorem prepare_dialogue_sequence_nums (scenes : List Scene) :
    (prepare_dialogue scenes).map (fun d => d.sequence_num)
      = List.range' 1 (prepare_dialogue scenes).length := by
  have hinit : SeqInv initMergeState := by
    constructor <;> simp [initMergeState]
  have h := foldl_processScene_inv SeqInv seqInv_step scenes initMergeState hinit
  obtain ⟨hmap, -⟩ := h
  unfold prepare_dialogue
  rw [List.map_reverse, hmap, List.reverse_reverse, List.length_reverse]

/-! ## C1: the duration equation -/

/-- The duration law each interval actually satisfies: intervals extended
in place by a merge recompute `duration = round(end_time - start_time, 2)`
(line 27), while freshly emitted intervals set
`duration = round(raw_end - start_time, 2)` (line 32), i.e.
`round((end_time + 0.1) - start_time, 2)` after the trailing trim. -/
def DurOK (d : DialogueInterval) : Prop :=
  d.duration = pyround2 (d.end_time - d.start_time)
    ∨ d.duration = pyround2 ((d.end_time + 1/10) - d.start_time)

theorem durOK_step (a b : ℚ) (st : MergeState) (l : TranscriptLine)
    (h : ∀ d ∈ st.revDialogue, DurOK d) :
    ∀ d ∈ (processLine a b st l).revDialogue, DurOK d := by
  simp only [processLine]
  by_cases hm : mergeCond st (a + l.start) = true
  · rw [if_pos hm]
    obtain ⟨d, rest, hrev⟩ := List.exists_cons_of_ne_nil
      (show st.revDialogue ≠ [] from
        fun h0 => by rw [mergeCond, h0] at hm; simp at hm)
    rw [hrev] at h ⊢
    intro e he
    rcases List.mem_cons.mp he with rfl | hmem
    · exact Or.inl rfl
    · exact h e (List.mem_cons_of_mem d hmem)
  · rw [if_neg hm]
    intro e he
    rcases List.mem_cons.mp he with rfl | hmem
    · refine Or.inr ?_
      show pyround2 (a + l.end' - (a + l.start)) =
        pyround2 ((a + l.end' - 1/10 + 1/10) - (a + l.start))
      congr 1
      ring
    · exact h e hmem

/-- C1 (amended): every interval returned by `prepare_dialogue` satisfies
either `duration = round(end_time - start_time, 2)` (intervals extended by
a merge) or `duration = round((end_time + 0.1) - start_time, 2)` (freshly
emitted intervals, whose duration is computed from the untrimmed raw end).
The claim's unconditional `duration = round(end_time - start_time, 2)`
fails for freshly emitted intervals. -/
theorem prepare_dialogue_duration_law (scenes : List Scene)
    (d : DialogueInterval) (hd : d ∈ prepare_dialogue scenes) : DurOK d := by
  have h := foldl_processScene_inv (fun st => ∀ e ∈ st.revDialogue, DurOK e)
    durOK_step scenes initMergeState (by simp [initMergeState])
  exact h d (List.mem_reverse.mp hd)

/-- Witness for C1 (amended), at a single one-line scene. -/
theorem prepare_dialogue_duration_law_w :
    (⟨0, 9/10, 1, 1⟩ : DialogueInterval) ∈ prepare_dialogue [⟨0, 10, [⟨0, 1⟩]⟩]
      ∧ DurOK ⟨0, 9/10, 1, 1⟩ := by
  have hm : (⟨0, 9/10, 1, 1⟩ : DialogueInterval) ∈
      prepare_dialogue [⟨0, 10, [⟨0, 1⟩]⟩] := by
    norm_num [prepare_dialogue, processScene, processLine, mergeCond,
      initMergeState, pyround2, rndHalfEven]
  exact ⟨hm, prepare_dialogue_duration_law _ _ hm⟩

/-- Counterexample to C1 as stated: for the single transcript line
`[0, 1]` in a scene starting at 0, the emitted interval has
`end_time = 0.9` and `duration = 1`, but
`round(end_time - start_time, 2) = 0.9 ≠ 1`. -/
theorem prepare_dialogue_duration_claim_cex :
    prepare_dialogue [⟨0, 10, [⟨0, 1⟩]⟩]
        = [⟨0, 9/10, 1, 1⟩]
      ∧ (1 : ℚ) ≠ pyround2 ((9/10 : ℚ) - 0) := by
  constructor
  · norm_num [prepare_dialogue, processScene, processLine, mergeCond,
      initMergeState, pyround2, rndHalfEven]
  · norm_num [pyround2, rndHalfEven]

/-! ## C5 and C10: merging across a scene boundary, and its one-shot nature -/

/-- C5 (amended): if the first line is *freshly emitted* (it does not
itself merge into an earlier interval), ends within the 0.1 threshold of
its scene's end, and the next processed line starts within 0.1 of its raw
end, then that next line is merged into the first line's interval: the
dialogue list does not grow, no `sequence_num` is consumed, and the last
interval now stretches to the second line's trimmed end. -/
theorem boundary_merge_after_fresh_emit (st : MergeState)
    (s1start s1end s2start s2end : ℚ) (l1 l2 : TranscriptLine)
    (hfresh : mergeCond st (s1start + l1.start) = false)
    (h1 : s1start + l1.end' ≥ s1end - 1/10)
    (h2 : |s2start + l2.start - (s1start + l1.end')| < 1/10) :
    processLine s2start s2end (processLine s1start s1end st l1) l2 =
      { revDialogue :=
          { start_time := s1start + l1.start,
            end_time := (s2start + l2.end') - 1/10,
            duration := pyround2 (((s2start + l2.end') - 1/10)
              - (s1start + l1.start)),
            sequence_num := st.sequence_counter } :: st.revDialogue,
        sequence_counter := st.sequence_counter + 1,
        last_dialogue_end := some (s2start + l2.end'),
        continuing_dialogue := false } := by
  have hst1 : processLine s1start s1end st l1 =
      { revDialogue :=
          { start_time := s1start + l1.start,
            end_time := (s1start + l1.end') - 1/10,
            duration := pyround2 ((s1start + l1.end') - (s1start + l1.start)),
            sequence_num := st.sequence_counter } :: st.revDialogue,
        sequence_counter := st.sequence_counter + 1,
        continuing_dialogue := true,
        last_dialogue_end := some (s1start + l1.end') } := by
    simp only [processLine, hfresh]
    simp [decide_eq_true_eq, ge_iff_le]
    linarith
  rw [hst1]
  have hm2 : mergeCond
      { revDialogue :=
          { start_time := s1start + l1.start,
            end_time := (s1start + l1.end') - 1/10,
            duration := pyround2 ((s1start + l1.end') - (s1start + l1.start)),
            sequence_num := st.sequence_counter } :: st.revDialogue,
        sequence_counter := st.sequence_counter + 1,
        continuing_dialogue := true,
        last_dialogue_end := some (s1start + l1.end') }
      (s2start + l2.start) = true := by
    simp [mergeCond]
    simpa using h2
  simp only [processLine, hm2, if_pos]

/-- Witness for C5 (amended): scene `[0,2]` with line `[0,1.95]` followed
by scene `[2,3]` opening with `[0,0.5]` produces one interval ending at
`2.4`. -/
theorem boundary_merge_after_fresh_emit_w :
    processLine 2 3 (processLine 0 2 initMergeState ⟨0, 39/20⟩) ⟨0, 1/2⟩ =
      { revDialogue :=
          [{ start_time := 0, end_time := (2 + (1/2 : ℚ)) - 1/10,
             duration := pyround2 (((2 + (1/2 : ℚ)) - 1/10) - 0),
             sequence_num := 1 }],
        sequence_counter := 2,
        last_dialogue_end := some (2 + (1/2 : ℚ)),
        continuing_dialogue := false } := by
  have h := boundary_merge_after_fresh_emit initMergeState 0 2 2 3
    ⟨0, 39/20⟩ ⟨0, 1/2⟩
    (by norm_num [mergeCond, initMergeState])
    (by norm_num) (by norm_num [abs_lt])
  simpa [initMergeState] using h

/-- Counterexample to C5 as stated: in scene `[0,2]` the line `[0,1.9]`
ends at the scene-end threshold, the following line `[1.95,2]` is merged
into it (one interval so far, and that second line ends at `2`, within
0.1 of the scene's end), and the next scene `[2,3]` opens with a line
starting at `2.05` — within 0.1 of the prior absolute end `2`.  The claim
requires that opening line to be merged (no new interval), but a second
interval with a fresh `sequence_num` is appended, because the earlier
merge cleared `continuing_dialogue`. -/
theorem boundary_merge_claim_cex :
    ((2 : ℚ) ≥ 2 - 1/10
      ∧ |(2 + (1/20 : ℚ)) - 2| < 1/10
      ∧ (prepare_dialogue [⟨0, 2, [⟨0, 19/10⟩, ⟨39/20, 2⟩]⟩]).length = 1)
    ∧ (prepare_dialogue
        [⟨0, 2, [⟨0, 19/10⟩, ⟨39/20, 2⟩]⟩, ⟨2, 3, [⟨1/20, 1/2⟩]⟩]).length = 2
    ∧ (prepare_dialogue
        [⟨0, 2, [⟨0, 19/10⟩, ⟨39/20, 2⟩]⟩, ⟨2, 3, [⟨1/20, 1/2⟩]⟩]).map
          (fun d => d.sequence_num) = [1, 2] := by
  refine ⟨⟨by norm_num, by norm_num [abs_lt], ?_⟩, ?_, ?_⟩ <;>
    norm_num [prepare_dialogue, processScene, processLine, mergeCond,
      initMergeState, pyround2, rndHalfEven, abs_lt]

/-- C10: a merge extends the last interval in place and clears the
`continuing_dialogue` flag, so the very next transcript line — whatever
scene it belongs to and however close it starts — always emits a fresh
interval with a fresh `sequence_num`.  In particular three consecutive
mutually-adjacent lines never collapse into one interval. -/
theorem merge_clears_continuing_flag (st : MergeState)
    (a b a' b' : ℚ) (l l' : TranscriptLine)
    (hm : mergeCond st (a + l.start) = true) :
    (processLine a b st l).continuing_dialogue = false
      ∧ (processLine a b st l).revDialogue.length = st.revDialogue.length
      ∧ (processLine a b st l).sequence_counter = st.sequence_counter
      ∧ (processLine a' b' (processLine a b st l) l').revDialogue.length
          = (processLine a b st l).revDialogue.length + 1
      ∧ (processLine a' b' (processLine a b st l) l').sequence_counter
          = (processLine a b st l).sequence_counter + 1 := by
  obtain ⟨d, rest, hrev⟩ := List.exists_cons_of_ne_nil
    (show st.revDialogue ≠ [] from
      fun h0 => by rw [mergeCond, h0] at hm; simp at hm)
  have hst1 : processLine a b st l =
      { st with
        revDialogue :=
          { d with end_time := (a + l.end') - 1/10,
                   duration := pyround2 (((a + l.end') - 1/10) - d.start_time) }
            :: rest,
        continuing_dialogue := false,
        last_dialogue_end := some (a + l.end') } := by
    simp only [processLine, hm, if_pos, hrev]
  have hm2 : mergeCond (processLine a b st l) (a' + l'.start) = false := by
    rw [hst1]
    simp [mergeCond]
  rw [hst1] at hm2 ⊢
  simp only [processLine, hm2, if_neg, Bool.false_eq_true, if_false]
  simp [hrev]

/-- Witness for C10 at a concrete merged state: the second line `[1.05,1.1]`
merges into the pending interval, the third line `[1.2,1.3]` starts a new
one even though it is also adjacent. -/
theorem merge_clears_continuing_flag_w :
    (processLine 0 10 ⟨[⟨0, 9/10, 1, 1⟩], 2, some 1, true⟩
        ⟨21/20, 11/10⟩).continuing_dialogue = false
      ∧ (processLine 0 10 ⟨[⟨0, 9/10, 1, 1⟩], 2, some 1, true⟩
          ⟨21/20, 11/10⟩).revDialogue.length
          = (⟨[⟨0, 9/10, 1, 1⟩], 2, some 1, true⟩ : MergeState).revDialogue.length
      ∧ (processLine 0 10 ⟨[⟨0, 9/10, 1, 1⟩], 2, some 1, true⟩
          ⟨21/20, 11/10⟩).sequence_counter
          = (⟨[⟨0, 9/10, 1, 1⟩], 2, some 1, true⟩ : MergeState).sequence_counter
      ∧ (processLine 0 10 (processLine 0 10 ⟨[⟨0, 9/10, 1, 1⟩], 2, some 1, true⟩
          ⟨21/20, 11/10⟩) ⟨6/5, 13/10⟩).revDialogue.length
          = (processLine 0 10 ⟨[⟨0, 9/10, 1, 1⟩], 2, some 1, true⟩
              ⟨21/20, 11/10⟩).revDialogue.length + 1
      ∧ (processLine 0 10 (processLine 0 10 ⟨[⟨0, 9/10, 1, 1⟩], 2, some 1, true⟩
          ⟨21/20, 11/10⟩) ⟨6/5, 13/10⟩).sequence_counter
          = (processLine 0 10 ⟨[⟨0, 9/10, 1, 1⟩], 2, some 1, true⟩
              ⟨21/20, 11/10⟩).sequence_counter + 1 :=
  merge_clears_continuing_flag ⟨[⟨0, 9/10, 1, 1⟩], 2, some 1, true⟩ 0 10 0 10
    ⟨21/20, 11/10⟩ ⟨6/5, 13/10⟩ (by norm_num [mergeCond, abs_lt])

/-! ## C3: malformed rows in the Clip Set Assembler -/

/-- C3 (amended): in `generate_final_output`'s row loop a malformed row —
empty, fewer than 19 columns, or with an uncoercible start or end time —
is excluded from the output and does not disturb the processing of the
rows around it.  (This holds for the `generate_final_output` loop only:
`extract_audio_clips` has no row-level handler and an uncoercible start
time aborts its whole batch, see `extract_audio_clips_aborts_cex`.) -/
theorem parseAudioRows_drops_malformed (fp : String → Option ℚ)
    (pre post : List (List String)) (bad : List String)
    (hbad : bad = [] ∨ bad.length < 19
      ∨ fp (bad.getD 15 "") = none ∨ fp (bad.getD 16 "") = none) :
    parseAudioRows fp (pre ++ bad :: post) = parseAudioRows fp (pre ++ post) := by
  have hskip : parseAudioRows fp (bad :: post) = parseAudioRows fp post := by
    rcases hbad with h | h | h | h
    · subst h; simp [parseAudioRows]
    · rw [parseAudioRows]
      rcases Decidable.em (bad.isEmpty = true) with he | he
      · rw [if_pos he]
      · rw [if_neg he, if_pos h]
    · rw [parseAudioRows]
      rcases Decidable.em (bad.isEmpty = true) with he | he
      · rw [if_pos he]
      · rw [if_neg he]
        rcases Decidable.em (bad.length < 19) with hl | hl
        · rw [if_pos hl]
        · rw [if_neg hl, h]
    · rw [parseAudioRows]
      rcases Decidable.em (bad.isEmpty = true) with he | he
      · rw [if_pos he]
      · rw [if_neg he]
        rcases Decidable.em (bad.length < 19) with hl | hl
        · rw [if_pos hl]
        · rw [if_neg hl]
          cases h15 : fp (bad.getD 15 "") with
          | none => rfl
          | some s => rw [h]
  induction pre with
  | nil => simpa using hskip
  | cons r rs ih =>
    simp only [List.cons_append]
    rw [parseAudioRows, parseAudioRows]
    rcases Decidable.em (r.isEmpty = true) with he | he
    · rw [if_pos he, if_pos he]; exact ih
    · rw [if_neg he, if_neg he]
      rcases Decidable.em (r.length < 19) with hl | hl
      · rw [if_pos hl, if_pos hl]; exact ih
      · rw [if_neg hl, if_neg hl]
        cases fp (r.getD 15 "") with
        | none => exact ih
        | some s =>
          cases fp (r.getD 16 "") with
          | none => exact ih
          | some e => rw [ih]

/-- Witness for C3 (amended): a 19-column row with non-numeric start time
between two valid rows is dropped and the batch survives. -/
theorem parseAudioRows_drops_malformed_w :
    (List.replicate 19 "oops" = ([] : List String)
        ∨ (List.replicate 19 "oops").length < 19
        ∨ (fun s => if s = "1.0" then some (1 : ℚ) else none)
            ((List.replicate 19 "oops").getD 15 "") = none
        ∨ (fun s => if s = "1.0" then some (1 : ℚ) else none)
            ((List.replicate 19 "oops").getD 16 "") = none)
      ∧ parseAudioRows (fun s => if s = "1.0" then some (1 : ℚ) else none)
          [List.replicate 19 "1.0", List.replicate 19 "oops",
            List.replicate 19 "1.0"]
        = parseAudioRows (fun s => if s = "1.0" then some (1 : ℚ) else none)
            [List.replicate 19 "1.0", List.replicate 19 "1.0"] := by
  refine ⟨by decide, ?_⟩
  exact parseAudioRows_drops_malformed _ [List.replicate 19 "1.0"]
    [List.replicate 19 "1.0"] _ (by decide)

/-- Counterexample to C3 as stated: `extract_audio_clips` selects both
rows (matching ids); the first has an uncoercible start time and the call
aborts with an exception — the valid second row is lost — whereas the
same valid row alone yields a clip.  Rows are
`(youtube_id, audio_description_id, start, end, playback_type, transcript)`. -/
theorem extract_audio_clips_aborts_cex :
    extract_audio_clips (fun s => if s = "1.0" then some (1 : ℚ) else none)
        "v" "a"
        [⟨some "v", some "a", some "oops", some "1.0", some "inline", some "t1"⟩,
         ⟨some "v", some "a", some "1.0", some "1.0", some "inline", some "t2"⟩]
        = .error ()
      ∧ extract_audio_clips (fun s => if s = "1.0" then some (1 : ℚ) else none)
          "v" "a"
          [⟨some "v", some "a", some "1.0", some "1.0", some "inline", some "t2"⟩]
        = .ok [⟨1, 1, "Visual", "inline", "t2"⟩] := by
  constructor
  · rfl
  · simp [extract_audio_clips, extractClipRows, pyFloatOfField, sortClips,
      Except.map]

/-! ## C9: the assembler's sort is ascending and stable -/

theorem clipLe_trans (a b c : AudioClip) :
    decide (a.start_time ≤ b.start_time) →
    decide (b.start_time ≤ c.start_time) →
    decide (a.start_time ≤ c.start_time) := by
  simp only [decide_eq_true_eq]
  exact le_trans

theorem clipLe_total (a b : AudioClip) :
    decide (a.start_time ≤ b.start_time)
      || decide (b.start_time ≤ a.start_time) := by
  simp only [Bool.or_eq_true, decide_eq_true_eq]
  exact le_total _ _

/-- C9: for every parser behaviour and row list (hence for every
permutation of the parsed clips), the Clip Set Assembler's output is
sorted non-decreasing by `start_time`, and the sort is stable: the
subsequence of clips with any given `start_time` is exactly the
subsequence they formed in row order. -/
theorem generate_audio_clips_sorted_stable (fp : String → Option ℚ)
    (rows : List (List String)) :
    (generate_audio_clips fp rows).Pairwise
        (fun a b => a.start_time ≤ b.start_time)
      ∧ ∀ q : ℚ,
        (generate_audio_clips fp rows).filter (fun c => decide (c.start_time = q))
          = (parseAudioRows fp rows).filter (fun c => decide (c.start_time = q)) := by
  constructor
  · have h := List.sorted_mergeSort clipLe_trans clipLe_total
      (parseAudioRows fp rows)
    exact h.imp (fun hab => of_decide_eq_true hab)
  · intro q
    set L := parseAudioRows fp rows with hL
    set p : AudioClip → Bool := fun c => decide (c.start_time = q) with hp
    have hpair : (L.filter p).Pairwise
        (fun a b => decide (a.start_time ≤ b.start_time) = true) := by
      refine List.pairwise_of_forall_mem_list ?_
      intro a ha b hb
      have ha' : a.start_time = q := by
        have := (List.mem_filter.mp ha).2
        simpa [hp] using this
      have hb' : b.start_time = q := by
        have := (List.mem_filter.mp hb).2
        simpa [hp] using this
      simp [ha', hb']
    have hsub : List.Sublist (L.filter p) (sortClips L) :=
      List.sublist_mergeSort clipLe_trans clipLe_total hpair (List.filter_sublist L)
    have hsub2 : List.Sublist ((L.filter p).filter p) ((sortClips L).filter p) :=
      hsub.filter p
    rw [List.filter_filter] at hsub2
    have hidem : (fun a => p a && p a) = p := by
      funext a; cases p a <;> simp
    rw [hidem] at hsub2
    have hperm : List.Perm ((sortClips L).filter p) (L.filter p) :=
      (List.mergeSort_perm L _).filter p
    exact (hsub2.eq_of_length hperm.length_eq.symm).symm

/-! ## C2: the Response Normalizer's dispatch -/

theorem cpj_eq_of_braces (jl le : String → Option PyVal) (text : String)
    (hne : text.isEmpty = false) (i j : ℕ)
    (hi : firstBraceIdx (pyStrip (stripFences text.toList)) = some i)
    (hj : lastBraceIdx (pyStrip (stripFences text.toList)) = some j)
    (hij : i < j) :
    clean_and_parse_json jl le text =
      match jl (String.mk
          (((pyStrip (stripFences text.toList)).drop i).take (j + 1 - i))) with
      | some v => v
      | none => parseFailDict (String.mk (pyStrip (stripFences text.toList))) := by
  simp only [clean_and_parse_json]
  rw [if_neg (by simp [hne]), hi, hj]
  simp only [if_pos hij]

theorem cpj_eq_no_braces (jl le : String → Option PyVal) (text : String)
    (hne : text.isEmpty = false)
    (h : ∀ i j, firstBraceIdx (pyStrip (stripFences text.toList)) = some i →
      lastBraceIdx (pyStrip (stripFences text.toList)) = some j → ¬ i < j) :
    clean_and_parse_json jl le text =
      match le (String.mk (pyStrip (stripFences text.toList))) with
      | some v => v
      | none => parseFailDict (String.mk (pyStrip (stripFences text.toList))) := by
  simp only [clean_and_parse_json]
  rw [if_neg (by simp [hne])]
  cases hi : firstBraceIdx (pyStrip (stripFences text.toList)) with
  | none => rfl
  | some i =>
    cases hj : lastBraceIdx (pyStrip (stripFences text.toList)) with
    | none => rfl
    | some j => simp [h i j hi hj]

/-- C2 (amended): for every non-empty input, the Response Normalizer
(total in this embedding — it never raises)
(1) consults only the strict JSON parser when the fence-stripped, trimmed
text has a `{` strictly before a `}` — the permissive fallback cannot
influence the result there, even when strict parsing fails;
(2) on strict-parse failure of the brace substring it returns the error
object whose `raw_response` is the *stripped* text, not the original;
(3) only when no such brace pair exists does it run the permissive
literal parse, on the *stripped* text, with the same error object as
fallback. -/
theorem clean_and_parse_json_dispatch (jl le le' : String → Option PyVal)
    (text : String) (hne : text.isEmpty = false) :
    (∀ i j, firstBraceIdx (pyStrip (stripFences text.toList)) = some i →
        lastBraceIdx (pyStrip (stripFences text.toList)) = some j → i < j →
        clean_and_parse_json jl le text = clean_and_parse_json jl le' text)
      ∧ (∀ i j, firstBraceIdx (pyStrip (stripFences text.toList)) = some i →
          lastBraceIdx (pyStrip (stripFences text.toList)) = some j → i < j →
          jl (String.mk
            (((pyStrip (stripFences text.toList)).drop i).take (j + 1 - i)))
            = none →
          clean_and_parse_json jl le text
            = parseFailDict (String.mk (pyStrip (stripFences text.toList))))
      ∧ ((∀ i j, firstBraceIdx (pyStrip (stripFences text.toList)) = some i →
          lastBraceIdx (pyStrip (stripFences text.toList)) = some j → ¬ i < j) →
          clean_and_parse_json jl le text
            = match le (String.mk (pyStrip (stripFences text.toList))) with
              | some v => v
              | none =>
                parseFailDict (String.mk (pyStrip (stripFences text.toList)))) := by
  refine ⟨?_, ?_, ?_⟩
  · intro i j hi hj hij
    rw [cpj_eq_of_braces jl le text hne i j hi hj hij,
      cpj_eq_of_braces jl le' text hne i j hi hj hij]
  · intro i j hi hj hij hfail
    rw [cpj_eq_of_braces jl le text hne i j hi hj hij, hfail]
  · intro h
    exact cpj_eq_no_braces jl le text hne h

/-- Witness for C2 (amended), at the fenced input
`"```json\n{"a": 1,}\n```"` whose brace substring fails strict parsing:
the result is the error object on the stripped text, and the fallback
parser (here: one succeeding on every input) is never consulted. -/
theorem clean_and_parse_json_dispatch_w :
    clean_and_parse_json (fun _ => none) (fun s => some (.vstr s))
        "```json\n\x7b\"a\": 1,\x7d\n```"
      = parseFailDict (String.mk (pyStrip (stripFences
          ("```json\n\x7b\"a\": 1,\x7d\n```".toList)))) :=
  (clean_and_parse_json_dispatch (fun _ => none) (fun s => some (.vstr s))
      (fun _ => none) "```json\n\x7b\"a\": 1,\x7d\n```" rfl).2.1
    0 8 rfl rfl (by norm_num) rfl

/-- Counterexample to C2 as stated: for the fenced input with a trailing
comma, strict parsing of the brace substring fails, and although the
permissive parser (modelled as succeeding on *every* input, as
`ast.literal_eval` would on this dict literal) could parse both the
original and the stripped text, no fallback happens: the result is the
error object, and its `raw_response` is the stripped text, not the
original input. -/
theorem clean_and_parse_json_claim_cex :
    clean_and_parse_json (fun _ => none) (fun s => some (.vstr s))
        "```json\n\x7b\"a\": 1,\x7d\n```"
      = .vdict [("error", .vstr "Failed to parse model output as JSON"),
                ("raw_response", .vstr "\x7b\"a\": 1,\x7d")]
      ∧ "\x7b\"a\": 1,\x7d" ≠ "```json\n\x7b\"a\": 1,\x7d\n```" := by
  exact ⟨rfl, by decide⟩

/-! ## C6: the chunk windows partition `[0, D)` -/

theorem chunkGo_nil (D s : ℚ) (h : ¬ s < D) : chunkGo D s = [] := by
  rw [chunkGo, dif_neg h]

theorem chunkGo_cons (D s : ℚ) (h : s < D) :
    chunkGo D s = (s, min (s + 30) D) :: chunkGo D (min (s + 30) D) := by
  rw [chunkGo, dif_pos h]

theorem chunkGo_head (D s : ℚ) (h : s < D) :
    (chunkGo D s).head? = some (s, min (s + 30) D) := by
  rw [chunkGo_cons D s h]; rfl

theorem chunkGo_mem (D s : ℚ) :
    ∀ w ∈ chunkGo D s, w.1 < w.2 ∧ w.2 - w.1 ≤ 30 := by
  induction s using chunkGo.induct D with
  | case1 s h ih =>
    rw [chunkGo_cons D s h]
    intro w hw
    rcases List.mem_cons.mp hw with rfl | hmem
    · constructor
      · exact lt_min (by linarith) h
      · simp only []
        have : min (s + 30) D ≤ s + 30 := min_le_left _ _
        linarith
    · exact ih w hmem
  | case2 s h =>
    rw [chunkGo_nil D s h]
    intro w hw
    simp at hw

theorem chunkGo_chain (D s : ℚ) :
    (chunkGo D s).Chain' (fun a b => a.2 = b.1) := by
  induction s using chunkGo.induct D with
  | case1 s h ih =>
    rw [chunkGo_cons D s h]
    refine List.chain'_cons'.mpr ⟨?_, ih⟩
    intro y hy
    rcases Decidable.em (min (s + 30) D < D) with hm | hm
    · rw [chunkGo_head D _ hm] at hy
      cases hy; rfl
    · rw [chunkGo_nil D _ hm] at hy
      simp at hy
  | case2 s h => rw [chunkGo_nil D s h]; simp

theorem chunkGo_dropLast (D s : ℚ) :
    ∀ w ∈ (chunkGo D s).dropLast, w.2 - w.1 = 30 := by
  induction s using chunkGo.induct D with
  | case1 s h ih =>
    rw [chunkGo_cons D s h]
    rcases Decidable.em (chunkGo D (min (s + 30) D) = []) with hnil | hnil
    · rw [hnil]
      intro w hw
      simp at hw
    · rw [List.dropLast_cons_of_ne_nil hnil]
      intro w hw
      rcases List.mem_cons.mp hw with rfl | hmem
      · have hlt : min (s + 30) D < D := by
          by_contra hc
          exact hnil (chunkGo_nil D _ hc)
        have : min (s + 30) D = s + 30 := by
          rcases min_cases (s + 30) D with ⟨he, -⟩ | ⟨he, -⟩
          · exact he
          · rw [he] at hlt; exact absurd hlt (lt_irrefl D)
        simp only [this]
        ring
      · exact ih w hmem
  | case2 s h =>
    rw [chunkGo_nil D s h]
    intro w hw
    simp at hw

theorem chunkGo_getLast (D s : ℚ) (h : s < D) :
    ∃ k : ℕ, (chunkGo D s).getLast? = some (s + 30 * k, D)
      ∧ s + 30 * k < D ∧ D ≤ s + 30 * k + 30 := by
  induction s using chunkGo.induct D with
  | case1 s hlt ih =>
    rcases Decidable.em (chunkGo D (min (s + 30) D) = []) with hnil | hnil
    · have hDle : ¬ min (s + 30) D < D := by
        by_contra hc
        rw [chunkGo_cons D _ hc] at hnil
        simp at hnil
      have hmin : min (s + 30) D = D := by
        rcases min_cases (s + 30) D with ⟨he, hle⟩ | ⟨he, -⟩
        · rw [he] at hDle; linarith [not_lt.mp hDle]
        · exact he
      refine ⟨0, ?_, by simpa using hlt, ?_⟩
      · rw [chunkGo_cons D s hlt, hnil, hmin]
        simp
      · have := min_le_left (s + 30) D
        rw [hmin] at this
        simpa using this
    · have hlt2 : min (s + 30) D < D := by
        by_contra hc
        exact hnil (chunkGo_nil D _ hc)
      have hmin : min (s + 30) D = s + 30 := by
        rcases min_cases (s + 30) D with ⟨he, -⟩ | ⟨he, -⟩
        · exact he
        · rw [he] at hlt2; exact absurd hlt2 (lt_irrefl D)
      obtain ⟨k, hk, hk1, hk2⟩ := ih hlt2
      rw [hmin] at hk hk1 hk2
      refine ⟨k + 1, ?_, ?_, ?_⟩
      · rw [chunkGo_cons D s hlt, List.getLast?_cons, hmin, hk]
        simp only [Option.getD_some, Option.some.injEq, Prod.mk.injEq]
        constructor
        · push_cast
          ring
        · trivial
      · push_cast
        linarith
      · push_cast
        linarith
  | case2 s hlt => exact absurd h hlt

/-- C6: for every positive duration `D`, the Evaluation Chunker's window
list partitions `[0, D)`: it is non-empty, starts at 0, ends at `D`, each
window's end is the next one's start (consecutive, non-overlapping), every
window is non-empty with length at most 30, every non-final window has
length exactly 30, and the final window has length `D mod 30` when that is
nonzero (and 30 when `30 ∣ D`).  In particular `D = 65` yields exactly
`[0,30), [30,60), [60,65)`. -/
theorem chunkWindows_partition_spec :
    (∀ D : ℚ, 0 < D →
      chunkWindows D ≠ []
        ∧ (chunkWindows D).head?.map Prod.fst = some 0
        ∧ (chunkWindows D).getLast?.map Prod.snd = some D
        ∧ (chunkWindows D).Chain' (fun a b => a.2 = b.1)
        ∧ (∀ w ∈ chunkWindows D, w.1 < w.2 ∧ w.2 - w.1 ≤ 30)
        ∧ (∀ w ∈ (chunkWindows D).dropLast, w.2 - w.1 = 30)
        ∧ (∀ w, (chunkWindows D).getLast? = some w →
            w.2 - w.1 =
              if D - 30 * ⌊D / 30⌋ = 0 then 30 else D - 30 * ⌊D / 30⌋))
      ∧ chunkWindows 65 = [(0, 30), (30, 60), (60, 65)] := by
  constructor
  · intro D hD
    obtain ⟨k, hk, hk1, hk2⟩ := chunkGo_getLast D 0 hD
    simp only [zero_add] at hk hk1 hk2
    refine ⟨?_, ?_, ?_, chunkGo_chain D 0, chunkGo_mem D 0,
      chunkGo_dropLast D 0, ?_⟩
    · rw [chunkWindows, chunkGo_cons D 0 hD]
      simp
    · rw [chunkWindows, chunkGo_head D 0 hD]
      rfl
    · rw [chunkWindows, hk]
      rfl
    · intro w hw
      rw [chunkWindows, hk] at hw
      cases hw
      simp only []
      rcases eq_or_lt_of_le hk2 with heq | hlt
    
      · have hfloor : ⌊D / 30⌋ = (k : ℤ) + 1 := by
          rw [Int.floor_eq_iff]
          constructor
          · rw [le_div_iff (by norm_num : (0:ℚ) < 30)]
            push_cast
            linarith
          · rw [div_lt_iff (by norm_num : (0:ℚ) < 30)]
            push_cast
            linarith
        rw [hfloor]
        rw [if_pos (by push_cast; linarith)]
        linarith
      · have hfloor : ⌊D / 30⌋ = (k : ℤ) := by
          rw [Int.floor_eq_iff]
          constructor
          · rw [le_div_iff (by norm_num : (0:ℚ) < 30)]
            push_cast
            linarith
          · rw [div_lt_iff (by norm_num : (0:ℚ) < 30)]
            push_cast
            linarith
        rw [hfloor]
        rw [if_neg (by push_cast; intro hc; linarith)]
        push_cast
        linarith
  · rw [chunkWindows, chunkGo]
    norm_num
    rw [chunkGo]
    norm_num
    rw [chunkGo]
    norm_num
    rw [chunkGo]
    norm_num

/-- Witness for C6 at `D = 65`. -/
theorem chunkWindows_partition_spec_w :
    chunkWindows 65 ≠ []
      ∧ (chunkWindows 65).head?.map Prod.fst = some 0
      ∧ (chunkWindows (65 : ℚ)).getLast?.map Prod.snd = some 65
      ∧ (chunkWindows 65).Chain' (fun a b => a.2 = b.1)
      ∧ (∀ w ∈ chunkWindows (65 : ℚ), w.1 < w.2 ∧ w.2 - w.1 ≤ 30)
      ∧ (∀ w ∈ (chunkWindows (65 : ℚ)).dropLast, w.2 - w.1 = 30)
      ∧ (∀ w, (chunkWindows (65 : ℚ)).getLast? = some w →
          w.2 - w.1 =
            if (65 : ℚ) - 30 * ⌊(65 : ℚ) / 30⌋ = 0 then 30
            else (65 : ℚ) - 30 * ⌊(65 : ℚ) / 30⌋) :=
  chunkWindows_partition_spec.1 65 (by norm_num)

/-! ## C7: first-valid-wins reduction of chunk responses -/

/-- The acceptance test of `combine_chunk_responses` (line 185):
`parsed and "evaluation_summary" in parsed`, for parses on which the
membership test is defined. -/
def goodParse (v : PyVal) : Bool :=
  pyTruthy v && (pyContains v "evaluation_summary").getD false

theorem combineLoop_eq (jl le : String → Option PyVal) (rs : List String)
    (hsafe : ∀ r ∈ rs, pyTruthy (clean_and_parse_json jl le r) = true →
      (pyContains (clean_and_parse_json jl le r) "evaluation_summary").isSome) :
    combineLoop jl le rs =
      some ((rs.find? (fun r => goodParse (clean_and_parse_json jl le r))).map
        (fun r => clean_and_parse_json jl le r)) := by
  induction rs with
  | nil => rfl
  | cons r rs ih =>
    have hsafe_tail : ∀ r ∈ rs, pyTruthy (clean_and_parse_json jl le r) = true →
        (pyContains (clean_and_parse_json jl le r) "evaluation_summary").isSome :=
      fun x hx => hsafe x (List.mem_cons_of_mem r hx)
    rw [combineLoop, List.find?]
    cases hp : pyTruthy (clean_and_parse_json jl le r) with
    | false =>
      rw [if_neg (by simp [hp])]
      have hg : goodParse (clean_and_parse_json jl le r) = false := by
        simp [goodParse, hp]
      rw [hg, ih hsafe_tail]
    | true =>
      rw [if_pos rfl]
      have hsome := hsafe r (List.mem_cons_self r rs) hp
      obtain ⟨b, hb⟩ := Option.isSome_iff_exists.mp hsome
      rw [hb]
      cases b with
      | true =>
        have hg : goodParse (clean_and_parse_json jl le r) = true := by
          simp [goodParse, hp, hb]
        rw [hg]
        rfl
      | false =>
        have hg : goodParse (clean_and_parse_json jl le r) = false := by
          simp [goodParse, hp, hb]
        rw [hg, ih hsafe_tail]

/-- C7 (amended): provided every parsed response supports Python's `in`
membership test when truthy (dict, list or string — as every well-formed
or error parse is), the reduction returns the parse of the first response,
in order, whose parse is truthy and contains the `evaluation_summary` key,
and the all-raw-responses error record when there is none.  Without that
proviso the claim fails: a truthy non-container parse makes the membership
test raise, see `combine_chunk_raises_cex`. -/
theorem combine_chunk_first_valid (jl le : String → Option PyVal)
    (rs : List String) (hne : rs ≠ [])
    (hsafe : ∀ r ∈ rs, pyTruthy (clean_and_parse_json jl le r) = true →
      (pyContains (clean_and_parse_json jl le r) "evaluation_summary").isSome) :
    combine_chunk_responses jl le rs =
      some (match rs.find? (fun r => goodParse (clean_and_parse_json jl le r))
        with
        | some r => clean_and_parse_json jl le r
        | none =>
          .vdict [("error", .vstr "Could not parse any chunk responses"),
                  ("raw_responses", .vlist (rs.map .vstr))]) := by
  rw [combine_chunk_responses, if_neg (by simp [hne]), combineLoop_eq jl le rs hsafe]
  cases hf : rs.find? (fun r => goodParse (clean_and_parse_json jl le r)) with
  | none => rfl
  | some r => rfl

/-- Witness for C7 (amended), mirroring the spec's example: of the
responses `["not json", "{\"evaluation_summary\": 5}", "garbage"]` the
parsed second one is returned, not an error. -/
theorem combine_chunk_first_valid_w :
    combine_chunk_responses
        (fun s => if s = "\x7b\"evaluation_summary\": 5\x7d" then
          some (.vdict [("evaluation_summary", .vnum 5)]) else none)
        (fun _ => none)
        ["not json", "\x7b\"evaluation_summary\": 5\x7d", "garbage"]
      = some (.vdict [("evaluation_summary", .vnum 5)]) :=
  combine_chunk_first_valid
    (fun s => if s = "\x7b\"evaluation_summary\": 5\x7d" then
      some (.vdict [("evaluation_summary", .vnum 5)]) else none)
    (fun _ => none)
    ["not json", "\x7b\"evaluation_summary\": 5\x7d", "garbage"]
    (by simp) (by decide)

/-- Counterexample to C7 as stated: the single collected response `"42"`
has no brace pair, the permissive fallback parses it to the number 42,
which is truthy, and the membership test
`"evaluation_summary" in parsed` then raises `TypeError` (modelled by
`none`): `combine_chunk_responses` raises instead of returning the error
record carrying the raw responses. -/
theorem combine_chunk_raises_cex :
    clean_and_parse_json (fun _ => none)
        (fun s => if s = "42" then some (.vnum 42) else none) "42"
      = .vnum 42
      ∧ combine_chunk_responses (fun _ => none)
          (fun s => if s = "42" then some (.vnum 42) else none) ["42"]
        = none :=
  ⟨rfl, rfl⟩

/-! ## C8: failure degradation of the Evaluation Chunker -/

/-- C8: when the duration probe fails, the duration is taken to be 0, the
window list is empty, no chunk is processed, and the chunker returns the
empty-response error record; and for any probe result, when no chunk
yields a response the chunker returns that same error record — a value,
never an exception. -/
theorem chunker_degrades_to_error_record (chunkOk : ℕ → Bool)
    (resp : ℕ → Option String) (jl le : String → Option PyVal) :
    (evaluate_video_with_qwen none chunkOk resp jl le
        = some (.vdict [("error", .vstr "No valid responses from chunks")])
      ∧ chunkWindows (get_video_duration none) = [])
    ∧ ∀ probe : Option ℚ, (∀ i, resp i = none) →
        evaluate_video_with_qwen probe chunkOk resp jl le
          = some (.vdict [("error", .vstr "No valid responses from chunks")]) := by
  have hzero : chunkWindows (get_video_duration none) = [] := by
    show chunkGo 0 0 = []
    exact chunkGo_nil 0 0 (lt_irrefl 0)
  constructor
  · refine ⟨?_, hzero⟩
    rw [evaluate_video_with_qwen, hzero]
    rfl
  · intro probe hresp
    rw [evaluate_video_with_qwen]
    have hnil : (chunkWindows (get_video_duration probe)).enum.filterMap
        (fun p => if chunkOk p.1 then resp p.1 else none) = [] := by
      refine List.filterMap_eq_nil_iff.mpr ?_
      intro p hp
      cases hc : chunkOk p.1 <;> simp [hc, hresp]
    rw [hnil]
    rfl

/-- Witness for C8: a successful probe of 65 time-units whose every chunk
submission returns nothing still produces the error record. -/
theorem chunker_degrades_to_error_record_w :
    evaluate_video_with_qwen (some 65) (fun _ => true) (fun _ => none)
        (fun _ => none) (fun _ => none)
      = some (.vdict [("error", .vstr "No valid responses from chunks")]) :=
  (chunker_degrades_to_error_record (fun _ => true) (fun _ => none)
    (fun _ => none) (fun _ => none)).2 (some 65) (fun _ => rfl)
